import Mathlib

/-!
Shallow embedding of the SmartCashFlowManager backend ingestion and budgeting
pipeline (src/transaction_processor.py, src/budget_analyzer.py), together with
theorems settling the specification claims about it.

Modelling conventions:
  * Python strings are Lean `String`s; the ASCII-relevant parts of Python's
    regex character classes (digits, word characters, whitespace) are modelled
    over ASCII, which covers every keyword and pattern the source uses.
  * Python floats are modelled as exact rationals (`Rat`).
  * MongoDB collections are modelled as Lean lists of documents; an
    insert-if-absent upsert appends iff no document with the same id exists.
  * Python dicts are modelled as insertion-ordered association lists
    (`dictUpd` replaces the binding in place or appends a fresh one, exactly
    like dict assignment; `dictGetD` is dict.get with a default).
  * The fitted sklearn model pipeline (vectorizer/classifier/label encoder) is
    a black box `String → Option String`: `some label` is a successful
    prediction, `none` is a runtime exception inside the try block.
-/

/-! ## Character and string helpers (ASCII model of Python str/regex ops) -/

def isAsciiDigit (c : Char) : Bool := '0' ≤ c && c ≤ '9'

def isAsciiAlpha (c : Char) : Bool := ('a' ≤ c && c ≤ 'z') || ('A' ≤ c && c ≤ 'Z')

/-- Python regex whitespace class over ASCII: space, tab, newline, carriage
return, vertical tab, form feed. -/
def isSpaceChar (c : Char) : Bool :=
  c = ' ' || c = '\t' || c = '\n' || c = '\r' || c = Char.ofNat 11 || c = Char.ofNat 12

/-- Python regex word class over ASCII: letters, digits, underscore. -/
def isWordChar (c : Char) : Bool := isAsciiAlpha c || isAsciiDigit c || c = '_'

/-- Python str.lower over ASCII. -/
def strLower (s : String) : String := String.mk (s.data.map Char.toLower)

/-- True iff the pattern is an initial segment of the text. -/
def charsMatch : List Char → List Char → Bool
  | [], _ => true
  | _ :: _, [] => false
  | p :: ps, c :: cs => (p == c) && charsMatch ps cs

/-- True iff the pattern occurs as a contiguous run in the text
(Python's substring operator on str). -/
def hasSubChars (pat : List Char) : List Char → Bool
  | [] => pat.isEmpty
  | c :: cs => charsMatch pat (c :: cs) || hasSubChars pat cs

def hasSubstr (pat s : String) : Bool := hasSubChars pat.data s.data

/-- Case-insensitive initial-segment match; the pattern is given in lowercase. -/
def ciMatch : List Char → List Char → Bool
  | [], _ => true
  | _ :: _, [] => false
  | p :: ps, c :: cs => (c.toLower == p) && ciMatch ps cs

/-- Python str.strip: drop leading and trailing whitespace. -/
def pyStrip (l : List Char) : List Char :=
  ((l.dropWhile isSpaceChar).reverse.dropWhile isSpaceChar).reverse

/-! ## ExtractionEngine: TransactionProcessor.parse_transaction_details

The money pattern is the Python regex (?i)(INR|Rs\.?|₹)\s?(\d+[,.]?\d*) and the
counterpart pattern is to\s([A-Za-z\s]+) with IGNORECASE; both are searched
leftmost-first.  The three currency alternatives start with distinct characters
so at most one applies at a position, and since ',', '.' and whitespace are not
digits, the greedy optional pieces never force backtracking; the matchers below
are therefore exact translations of the regex engine's behaviour on these
patterns. -/

/-- Matches the group (\d+[,.]?\d*): one or more digits, an optional single
comma or dot, then any further digits; returns the matched characters. -/
def digitPart (s : List Char) : Option (List Char) :=
  let d1 := s.takeWhile isAsciiDigit
  let r1 := s.dropWhile isAsciiDigit
  if d1.isEmpty then none
  else
    match r1 with
    | c :: r2 =>
        if c = ',' || c = '.' then some (d1 ++ c :: r2.takeWhile isAsciiDigit)
        else some d1
    | [] => some d1

/-- Matches \s?(\d+[,.]?\d*) at the head of the text. -/
def moneyTail (s : List Char) : Option (List Char) :=
  match s with
  | c :: r => if isSpaceChar c then digitPart r else digitPart s
  | [] => none

/-- Tries the full money pattern at one position: a currency marker
(INR, Rs with optional dot, or the rupee glyph), optional whitespace,
then the amount group. -/
def tryMoneyAt (s : List Char) : Option (List Char) :=
  if ciMatch ['i', 'n', 'r'] s then moneyTail (s.drop 3)
  else if ciMatch ['r', 's'] s then
    match s.drop 2 with
    | '.' :: r => moneyTail r
    | r => moneyTail r
  else if s.head? = some '₹' then moneyTail (s.drop 1)
  else none

/-- Leftmost search of the money pattern; returns group 2 on success. -/
def findMoneyGroup : List Char → Option (List Char)
  | [] => none
  | c :: cs =>
    match tryMoneyAt (c :: cs) with
    | some g => some g
    | none => findMoneyGroup cs

/-- Tries to\s([A-Za-z\s]+) at one position; returns group 1 on success. -/
def tryRecipAt (s : List Char) : Option (List Char) :=
  if ciMatch ['t', 'o'] s then
    match s.drop 2 with
    | c :: r =>
        if isSpaceChar c then
          let g := r.takeWhile (fun ch => isAsciiAlpha ch || isSpaceChar ch)
          if g.isEmpty then none else some g
        else none
    | [] => none
  else none

/-- Leftmost search of the counterpart pattern. -/
def findRecipGroup : List Char → Option (List Char)
  | [] => none
  | c :: cs =>
    match tryRecipAt (c :: cs) with
    | some g => some g
    | none => findRecipGroup cs

/-- TransactionProcessor.parse_transaction_details: returns
(amount string with commas stripped, stripped counterpart or "N/A",
direction string "credited"/"debited"/"N/A"). -/
def parse_transaction_details (body : String) : String × String × String :=
  let amount :=
    match findMoneyGroup body.data with
    | some g => String.mk (g.filter (fun c => c ≠ ','))
    | none => "0"
  let recipient :=
    match findRecipGroup body.data with
    | some g => String.mk (pyStrip g)
    | none => "N/A"
  let lb := strLower body
  let ttype :=
    if hasSubstr "credited" lb || hasSubstr "received" lb then "credited"
    else if hasSubstr "debited" lb || hasSubstr "sent" lb then "debited"
    else "N/A"
  (amount, recipient, ttype)

/-! ## CategoryClassifier: clean_text and classify_transaction -/

/-- TransactionProcessor.clean_text: drop characters that are neither word nor
whitespace characters, then lowercase. -/
def clean_text (text : String) : String :=
  strLower (String.mk (text.data.filter (fun c => isWordChar c || isSpaceChar c)))

/-- TransactionProcessor.classify_transaction.  The model argument is `none`
when self.model is None; otherwise `some m` where `m cleaned` is the
vectorize/predict/inverse_transform chain on the cleaned text (`none` meaning
a runtime exception, which the except-branch turns into "Miscellaneous").
Note that the credited override is applied only after a successful
prediction, exactly as in the source. -/
def classify_transaction : Option (String → Option String) → String → String → String
  | none, _, _ => "Miscellaneous"
  | some m, body, ttype =>
    if ttype = "N/A" then "Miscellaneous"
    else
      match m (clean_text body) with
      | none => "Miscellaneous"
      | some category =>
        if strLower ttype = "credited" then "Savings & Transfers" else category

/-! ## Python dict model: insertion-ordered association lists -/

/-- Python dict assignment d[k] = v: replace the (unique) binding of k in
place, or append a fresh binding. -/
def dictUpd : List (String × Rat) → String → Rat → List (String × Rat)
  | [], k, v => [(k, v)]
  | p :: d, k, v => if p.1 = k then (k, v) :: d else p :: dictUpd d k v

/-- Python dict.get(k, dflt). -/
def dictGetD : List (String × Rat) → String → Rat → Rat
  | [], _, dflt => dflt
  | p :: d, k, dflt => if p.1 = k then p.2 else dictGetD d k dflt

/-! ## Python round(x, 2) over exact rationals -/

/-- Round-half-to-even of a rational to the nearest integer, the tie rule
Python's round uses. -/
def roundHalfEven (q : Rat) : Int :=
  if q - (⌊q⌋ : Rat) < 1 / 2 then ⌊q⌋
  else if 1 / 2 < q - (⌊q⌋ : Rat) then ⌊q⌋ + 1
  else if ⌊q⌋ % 2 = 0 then ⌊q⌋ else ⌊q⌋ + 1

/-- Python round(x, 2) modelled over exact rationals. -/
def pyRound2 (q : Rat) : Rat := ((roundHalfEven (q * 100) : Int) : Rat) / 100

/-! ## BudgetEngine: budget_analyzer.py constants and functions -/

/-- BudgetAnalyzer.excluded_categories. -/
def excluded_categories : List String := ["Healthcare", "Education", "Essentials"]

/-- BudgetAnalyzer.reducible_categories. -/
def reducible_categories : List (String × Rat) :=
  [("Entertainment & Lifestyle", 8 / 10),
   ("Food & Dining", 9 / 10),
   ("Shopping", 8 / 10),
   ("Miscellaneous", 7 / 10),
   ("Subscriptions & Services", 9 / 10),
   ("Travel & Transportation", 9 / 10)]

/-- One iteration of the loop in BudgetAnalyzer.set_budget_constraints. -/
def constraintStep (d : List (String × Rat)) (p : String × Rat) : List (String × Rat) :=
  if p.1 ∈ excluded_categories then d
  else dictUpd d p.1 (p.2 * dictGetD reducible_categories p.1 1)

/-- BudgetAnalyzer.set_budget_constraints: for each non-excluded category,
recommended ceiling = amount × reduction factor (factor defaulting to 1 for
categories outside the table). -/
def set_budget_constraints (monthly_spending : List (String × Rat)) : List (String × Rat) :=
  monthly_spending.foldl constraintStep []

/-- BudgetAnalyzer.calculate_savings_potential: sum over non-excluded
categories of historical spend minus the recommended ceiling (defaulting to
the spend itself when the category has no constraint). -/
def calculate_savings_potential (monthly_spending budget_constraints : List (String × Rat)) : Rat :=
  ((monthly_spending.filter (fun p => decide (p.1 ∉ excluded_categories))).map
    (fun p => p.2 - dictGetD budget_constraints p.1 p.2)).sum

/-- A goal document as loaded by BudgetAnalyzer.get_user_goals. -/
structure GoalRec where
  goalName : String
  targetAmount : Rat
  timeframe : Int

/-- Monthly target of a goal: targetAmount / timeframe. -/
def monthlyTarget (g : GoalRec) : Rat := g.targetAmount / (g.timeframe : Rat)

/-- Goals whose timeframe is positive (g.get("timeframe", 0) > 0). -/
def validGoals (goals : List (Nat × GoalRec)) : List (Nat × GoalRec) :=
  goals.filter (fun p => decide (0 < p.2.timeframe))

/-- Sum of the valid goals' monthly targets. -/
def totalMonthlyTarget (goals : List (Nat × GoalRec)) : Rat :=
  ((validGoals goals).map (fun p => monthlyTarget p.2)).sum

/-- BudgetAnalyzer.allocate_savings_to_goals: empty when the total monthly
target is zero, else a dict keyed by goal name assigning each valid goal its
proportional share of the total savings potential. -/
def allocate_savings_to_goals (total_savings : Rat) (goals : List (Nat × GoalRec)) :
    List (String × Rat) :=
  if totalMonthlyTarget goals = 0 then []
  else
    (validGoals goals).foldl
      (fun d p =>
        dictUpd d p.2.goalName (monthlyTarget p.2 / totalMonthlyTarget goals * total_savings))
      []

/-- A categorized-transaction document as read back by
BudgetAnalyzer.get_current_spending; amount is `none` when float(Amount)
raises (unparseable stored amount). -/
structure SpendRecord where
  ttype : String
  category : String
  amount : Option Rat

/-- One iteration of the loop in BudgetAnalyzer.get_current_spending. -/
def spendStep (d : List (String × Rat)) (t : SpendRecord) : List (String × Rat) :=
  if t.ttype = "debited" then
    if t.category ∈ excluded_categories then d
    else
      match t.amount with
      | some a => dictUpd d t.category (dictGetD d t.category 0 + a)
      | none => d
  else d

/-- BudgetAnalyzer.get_current_spending: per-category totals of debited,
non-excluded, parseable categorized transactions over the whole collection. -/
def get_current_spending (txs : List SpendRecord) : List (String × Rat) :=
  txs.foldl spendStep []

/-- A document of the aicategories collection (the duplicate _id field, which
always equals category, is dropped). -/
structure RecDoc where
  category : String
  current : Rat
  recommended : Rat

/-- BudgetAnalyzer.save_recommendations: one record per recommended category,
with both figures rounded to two decimals. -/
def save_recommendations (current recommended : List (String × Rat)) : List RecDoc :=
  recommended.map (fun p => RecDoc.mk p.1 (pyRound2 (dictGetD current p.1 0)) (pyRound2 p.2))

/-! ## IngestionPipeline: transaction_processor.py data model -/

/-- A raw_sms document (the body/address/readable_date fields are modelled as
present; Mongo's get-with-default for missing fields stands for the same
values). -/
structure SmsDoc where
  id : Nat
  body : String
  address : String
  readableDate : String
deriving DecidableEq

/-- A transactions-collection document written by save_transaction. -/
structure TxDoc where
  id : Nat
  date : String
  address : String
  amount : Rat
  recipient : String
  ttype : String
  body : String

/-- A categorized_transactions document written by save_transaction. -/
structure CatTxDoc where
  id : Nat
  date : String
  address : String
  amount : Rat
  recipient : String
  ttype : String
  body : String
  category : String
  verified : Bool

/-- An expenses-collection (manual entry) document. -/
structure ManualDoc where
  id : Nat
  expenseName : String
  expenseAmount : Rat

/-- TransactionProcessor.transaction_categories. -/
def transaction_categories : List String :=
  ["debited", "credited", "sent", "received", "payment successful", "amount sent"]

/-- TransactionProcessor.non_transactional. -/
def non_transactional : List String :=
  ["offer", "promotion", "hurry", "discount", "click here", "thanks for recharge"]

/-- The keyword filter at the top of process_single_sms: a message is stored
iff its lowercased body contains some transaction keyword and no promotional
keyword. -/
def shouldStore (body : String) : Bool :=
  (transaction_categories.any (fun k => hasSubstr k (strLower body)))
    && !(non_transactional.any (fun k => hasSubstr k (strLower body)))

/-- Value of a digit run. -/
def digitsVal (l : List Char) : Nat :=
  l.foldl (fun a c => 10 * a + (c.toNat - '0'.toNat)) 0

/-- Python float() on the decimal strings produced by
parse_transaction_details (digits with an optional dot), as an exact
rational. -/
def amountStrToRat (s : String) : Rat :=
  let intPart := s.data.takeWhile (fun c => c ≠ '.')
  let fracPart := (s.data.dropWhile (fun c => c ≠ '.')).drop 1
  (digitsVal intPart : Rat) + (digitsVal fracPart : Rat) / ((10 : Rat) ^ fracPart.length)

/-! ## Aggregator: TransactionProcessor.update_combined_transactions -/

/-- TransactionProcessor.category_mapping. -/
def category_mapping : List (String × String) :=
  [("Essentials", "Essentials"),
   ("Food & Dining", "Food"),
   ("Shopping", "Shopping"),
   ("Entertainment & Lifestyle", "Lifestyle"),
   ("Savings & Transfers", "Savings"),
   ("Travel & Transportation", "Travel"),
   ("Subscriptions & Services", "Subscription"),
   ("Miscellaneous", "Misc.")]

/-- Association lookup in a string-to-string table. -/
def lookupStr : List (String × String) → String → Option String
  | [], _ => none
  | p :: t, c => if p.1 = c then some p.2 else lookupStr t c

/-- The renaming table as a partial function: `none` iff the source category
is absent from category_mapping (and is then excluded from the output). -/
def renameCat (c : String) : Option String := lookupStr category_mapping c

/-- One iteration of either accumulation loop in
update_combined_transactions: rename the source category through the table
(skip the record if absent) and add the amount into the renamed bucket. -/
def bumpCategory (d : List (String × Rat)) (orig : String) (amt : Rat) :
    List (String × Rat) :=
  match renameCat orig with
  | some nc => dictUpd d nc (dictGetD d nc 0 + amt)
  | none => d

/-- The category_totals dict built by update_combined_transactions from the
categorized-transaction and manual-entry collections. -/
def categoryTotals (cats : List CatTxDoc) (mans : List ManualDoc) : List (String × Rat) :=
  mans.foldl (fun d m => bumpCategory d m.expenseName m.expenseAmount)
    (cats.foldl (fun d t => bumpCategory d t.category t.amount) [])

/-- TransactionProcessor.update_combined_transactions: the fully recomputed
categorycharts collection, one (category, round(total, 2)) entry per bucket. -/
def update_combined_transactions (cats : List CatTxDoc) (mans : List ManualDoc) :
    List (String × Rat) :=
  (categoryTotals cats mans).map (fun p => (p.1, pyRound2 p.2))

/-! ## Pipeline state and TransactionProcessor.process_new_data -/

/-- The mutable state of TransactionProcessor together with the persisted
collections it writes; the raw collection is read-only input and passed
separately, and the manual collection is written only by external clients. -/
structure PState where
  model : Option (String → Option String)
  processedStore : List TxDoc
  categorizedStore : List CatTxDoc
  manualStore : List ManualDoc
  combined : List (String × Rat)
  processedIds : List Nat

/-- Mongo update_one({_id: id}, {$setOnInsert: doc}, upsert=True): insert the
document iff no document with its id exists, never modifying existing ones. -/
def insertTxIfAbsent (store : List TxDoc) (doc : TxDoc) : List TxDoc :=
  if store.any (fun d => d.id == doc.id) then store else store ++ [doc]

/-- Insert-if-absent for the categorized collection. -/
def insertCatIfAbsent (store : List CatTxDoc) (doc : CatTxDoc) : List CatTxDoc :=
  if store.any (fun d => d.id == doc.id) then store else store ++ [doc]

/-- Python set.add on the processed-id set. -/
def addId (ids : List Nat) (i : Nat) : List Nat := if i ∈ ids then ids else i :: ids

/-- TransactionProcessor.save_transaction: $setOnInsert-upsert the Transaction
and CategorizedTransaction documents keyed by the sms id; Verified is
(category different from "Miscellaneous"). -/
def save_transaction (s : PState) (sms : SmsDoc) (amount : Rat)
    (recipient ttype category : String) : PState :=
  { s with
    processedStore := insertTxIfAbsent s.processedStore
      (TxDoc.mk sms.id sms.readableDate sms.address amount recipient ttype sms.body),
    categorizedStore := insertCatIfAbsent s.categorizedStore
      (CatTxDoc.mk sms.id sms.readableDate sms.address amount recipient ttype sms.body
        category (decide (category ≠ "Miscellaneous"))) }

/-- TransactionProcessor.process_single_sms: returns the updated state and
whether a transaction was stored (false when the keyword filter discards the
message). -/
def process_single_sms (s : PState) (sms : SmsDoc) : PState × Bool :=
  if shouldStore sms.body then
    let parsed := parse_transaction_details sms.body
    let amountRat := amountStrToRat parsed.1
    let category := classify_transaction s.model sms.body parsed.2.2
    (save_transaction s sms amountRat parsed.2.1 parsed.2.2 category, true)
  else (s, false)

/-- One iteration of the SMS loop in process_new_data: run process_single_sms
and mark the id processed iff it returned True. -/
def step1 (s : PState) (sms : SmsDoc) : PState :=
  let r := process_single_sms s sms
  if r.2 then { r.1 with processedIds := addId r.1.processedIds sms.id } else r.1

/-- The manual-entry half of process_new_data: collect the manual ids not yet
processed; if there are any, mark them processed and recompute the combined
view. -/
def manualPhase (s : PState) : PState :=
  let newManual := (s.manualStore.map (fun m => m.id)).filter
    (fun i => !(decide (i ∈ s.processedIds)))
  if newManual.isEmpty then s
  else
    { s with
      processedIds := s.processedIds ++ newManual,
      combined := update_combined_transactions s.categorizedStore s.manualStore }

/-- The SMS half of process_new_data: fetch the raw messages whose ids are not
yet processed, run process_single_sms on each, and recompute the combined view
iff at least one message was pending. -/
def smsPhase (raws : List SmsDoc) (s : PState) : PState :=
  let pending := raws.filter (fun m => !(decide (m.id ∈ s.processedIds)))
  if pending.isEmpty then s
  else
    let s2 := pending.foldl step1 s
    { s2 with combined := update_combined_transactions s2.categorizedStore s2.manualStore }

/-- TransactionProcessor.process_new_data (the integer count it returns is
dropped; only the state effect matters here). -/
def process_new_data (raws : List SmsDoc) (s : PState) : PState :=
  smsPhase raws (manualPhase s)

/-- The ids that have a persisted Transaction, CategorizedTransaction or
ManualEntry record. -/
def persistedIds (s : PState) : List Nat :=
  s.processedStore.map (fun d => d.id)
    ++ s.categorizedStore.map (fun d => d.id)
    ++ s.manualStore.map (fun d => d.id)

/-- TransactionProcessor.initialize_processed_ids: a full scan of the
transactions, categorized_transactions and expenses collections. -/
def initialize_processed_ids (s : PState) : List Nat := persistedIds s

/-- The C5 invariant: every persisted id is in the in-memory processed set. -/
def ProcessedInv (s : PState) : Prop :=
  ∀ i ∈ persistedIds s, i ∈ s.processedIds

instance (s : PState) : Decidable (ProcessedInv s) := by
  unfold ProcessedInv
  infer_instance

/-! ## Concrete example inputs used by witnesses and counterexamples -/

def pstate0 : PState := PState.mk none [] [] [] [] []

def c2sms : SmsDoc := SmsDoc.mk 1 "hello" "addr" "2024-01-01"

def c5sms : SmsDoc := SmsDoc.mk 1 "Rs 50 sent to Bob" "addr" "2024-01-01"

def c8cats : List CatTxDoc :=
  [CatTxDoc.mk 1 "d" "a" 100 "r" "debited" "b" "Food & Dining" true,
   CatTxDoc.mk 2 "d" "a" 50 "r" "debited" "b" "Food & Dining" true]

def c8badcats : List CatTxDoc :=
  [CatTxDoc.mk 3 "d" "a" (1239 / 1000) "r" "debited" "b" "Food & Dining" true]

def c4goalsAB : List (Nat × GoalRec) :=
  [(1, GoalRec.mk "Emergency Fund" 200 1), (2, GoalRec.mk "Car" 800 1)]

def c4goalsDup : List (Nat × GoalRec) :=
  [(1, GoalRec.mk "Car" 200 1), (2, GoalRec.mk "Car" 800 1)]

def c9spending : List (String × Rat) := [("Shopping", 100), ("Food & Dining", 50)]

def c10txsA : List SpendRecord :=
  [SpendRecord.mk "debited" "Shopping" (some 100),
   SpendRecord.mk "credited" "Shopping" (some 999),
   SpendRecord.mk "debited" "Shopping" none]

def c10txsB : List SpendRecord :=
  [SpendRecord.mk "debited" "Shopping" (some (1239 / 1000))]

/-! ## Theorems for claims C3, C6, C7 -/

/-- C7: extraction is a pure function of the text, and on
"Rs. 1,500 sent to John Doe" it yields amount "1500" (comma stripped),
counterpart "John Doe", and direction "debited", the credit keywords
"credited"/"received" being absent and "sent" present. -/
theorem c7_extraction_concrete :
    parse_transaction_details "Rs. 1,500 sent to John Doe" = ("1500", "John Doe", "debited")
    ∧ hasSubstr "credited" (strLower "Rs. 1,500 sent to John Doe") = false
    ∧ hasSubstr "received" (strLower "Rs. 1,500 sent to John Doe") = false
    ∧ hasSubstr "sent" (strLower "Rs. 1,500 sent to John Doe") = true := by
  decide

/-- C3 counterexample: with a trained model whose prediction raises at run
time, classifying a credited message returns "Miscellaneous", not
"Savings & Transfers" — the claimed independence from model runtime behaviour
fails because the credited override sits after the prediction in the try
block. -/
theorem c3_counterexample :
    classify_transaction (some (fun _ => (none : Option String)))
        "Rs 100 credited to your account" "credited" = "Miscellaneous"
    ∧ ("Miscellaneous" : String) ≠ "Savings & Transfers" := by
  exact ⟨rfl, by decide⟩

/-- C3 amended: when the direction is credit, the classifier does invoke the
model, and whenever the model is trained and its prediction succeeds the
result is the fixed category "Savings & Transfers" regardless of the
predicted label; if the model is untrained or prediction fails the result is
"Miscellaneous" instead. -/
theorem c3_credit_override (m : String → Option String) (body pred : String)
    (h : m (clean_text body) = some pred) :
    classify_transaction (some m) body "credited" = "Savings & Transfers" := by
  simp only [classify_transaction]
  rw [if_neg (by decide : ¬("credited" : String) = "N/A"), h]
  rfl

theorem c3_credit_override_witness :
    classify_transaction (some (fun _ => some "Food")) "salary received" "credited"
      = "Savings & Transfers" :=
  c3_credit_override (fun _ => some "Food") "salary received" "Food" rfl

/-- C6: classification is a total function that falls back to "Miscellaneous"
whenever the model is untrained, whenever the direction is unknown ("N/A",
for every model state), and whenever the prediction raises at run time. -/
theorem c6_classification_fallback (model : Option (String → Option String))
    (body ttype : String) :
    classify_transaction none body ttype = "Miscellaneous"
    ∧ classify_transaction model body "N/A" = "Miscellaneous"
    ∧ ∀ m : String → Option String, m (clean_text body) = none →
        classify_transaction (some m) body ttype = "Miscellaneous" := by
  refine ⟨rfl, ?_, ?_⟩
  · cases model with
    | none => rfl
    | some m => simp [classify_transaction]
  · intro m h
    simp only [classify_transaction]
    by_cases hna : ttype = "N/A"
    · rw [if_pos hna]
    · rw [if_neg hna, h]

theorem c6_classification_fallback_witness :
    classify_transaction (some (fun _ => (none : Option String))) "hello world" "debited"
      = "Miscellaneous" :=
  (c6_classification_fallback (some (fun _ => none)) "hello world" "debited").2.2
    (fun _ => none) rfl

/-! ## Association-list (Python dict) lemmas -/

theorem dictGetD_dictUpd_self (d : List (String × Rat)) (k : String) (v dflt : Rat) :
    dictGetD (dictUpd d k v) k dflt = v := by
  induction d with
  | nil => simp [dictUpd, dictGetD]
  | cons p d ih =>
    by_cases h : p.1 = k
    · simp [dictUpd, dictGetD, h]
    · simp [dictUpd, dictGetD, h, ih]

theorem dictGetD_dictUpd_ne (d : List (String × Rat)) (k c : String) (v dflt : Rat)
    (h : c ≠ k) : dictGetD (dictUpd d k v) c dflt = dictGetD d c dflt := by
  have h' : ¬(k = c) := fun he => h he.symm
  induction d with
  | nil => simp [dictUpd, dictGetD, h']
  | cons p d ih =>
    by_cases hp : p.1 = k
    · have hpc : ¬(p.1 = c) := by rw [hp]; exact h'
      simp [dictUpd, dictGetD, hp, h', hpc]
    · by_cases hc : p.1 = c
      · simp [dictUpd, dictGetD, hp, hc, h]
      · simp [dictUpd, dictGetD, hp, hc, ih]

theorem dictUpd_of_fresh (d : List (String × Rat)) (k : String) (v : Rat)
    (h : k ∉ d.map (fun p => p.1)) : dictUpd d k v = d ++ [(k, v)] := by
  induction d with
  | nil => rfl
  | cons p d ih =>
    simp only [List.map_cons, List.mem_cons] at h
    push_neg at h
    have h1 : ¬(p.1 = k) := fun he => h.1 he.symm
    simp [dictUpd, h1, ih h.2]

theorem mem_keys_dictUpd (d : List (String × Rat)) (k c : String) (v : Rat)
    (h : c ∈ (dictUpd d k v).map (fun p => p.1)) :
    c ∈ d.map (fun p => p.1) ∨ c = k := by
  induction d with
  | nil => simp [dictUpd] at h; exact Or.inr h
  | cons p d ih =>
    by_cases hp : p.1 = k
    · simp only [dictUpd, if_pos hp, List.map_cons, List.mem_cons] at h
      rcases h with h | h
      · exact Or.inr h
      · exact Or.inl (by simp [h])
    · simp only [dictUpd, if_neg hp, List.map_cons, List.mem_cons] at h
      rcases h with h | h
      · exact Or.inl (by simp [h])
      · rcases ih h with h' | h'
        · exact Or.inl (by simp [h'])
        · exact Or.inr h'

/-! ## List sum helpers -/

theorem listSumNonneg (l : List Rat) (h : ∀ x ∈ l, 0 ≤ x) : 0 ≤ l.sum := by
  induction l with
  | nil => simp
  | cons x l ih =>
    simp only [List.sum_cons]
    exact add_nonneg (h x (by simp)) (ih (fun y hy => h y (by simp [hy])))

theorem listSumPos (l : List Rat) (hne : l ≠ []) (h : ∀ x ∈ l, 0 < x) : 0 < l.sum := by
  cases l with
  | nil => exact absurd rfl hne
  | cons x l =>
    simp only [List.sum_cons]
    exact add_pos_of_pos_of_nonneg (h x (by simp))
      (listSumNonneg l (fun y hy => le_of_lt (h y (by simp [hy]))))

theorem listSumDivMulMap {α : Type} (f : α → Rat) (T total : Rat) :
    ∀ l : List α, (l.map (fun p => f p / T * total)).sum = (l.map f).sum / T * total := by
  intro l
  induction l with
  | nil => simp
  | cons p l ih =>
    simp only [List.map_cons, List.sum_cons, ih]
    ring

/-! ## Claim C4: proportional goal allocation -/

theorem foldl_dictUpd_fresh {α : Type} (f : α → String) (v : α → Rat) :
    ∀ (l : List α) (d : List (String × Rat)),
      (∀ p ∈ l, f p ∉ d.map (fun q => q.1)) → (l.map f).Nodup →
      l.foldl (fun acc p => dictUpd acc (f p) (v p)) d = d ++ l.map (fun p => (f p, v p)) := by
  intro l
  induction l with
  | nil => intro d _ _; simp
  | cons p l ih =>
    intro d hfresh hnd
    simp only [List.map_cons, List.nodup_cons] at hnd
    simp only [List.foldl_cons, List.map_cons]
    rw [dictUpd_of_fresh d (f p) (v p) (hfresh p (by simp))]
    rw [ih (d ++ [(f p, v p)]) ?_ hnd.2]
    · simp
    · intro q hq
      simp only [List.map_append, List.mem_append]
      push_neg
      refine ⟨hfresh q (by simp [hq]), ?_⟩
      intro hmem
      have hfq : f q = f p := by simpa using hmem
      exact hnd.1 (hfq ▸ List.mem_map_of_mem f hq)

/-- C4 (amended): for a nonempty goal set with pairwise-distinct goal names,
all timeframes positive and all monthly targets positive, every goal is
allocated its monthly target's proportional share of the total savings
potential and the allocations sum exactly to that total; and for any goal set
whose total monthly target is zero the allocation is empty. -/
theorem c4_allocation_proportional (total : Rat) (goals : List (Nat × GoalRec))
    (hne : goals ≠ [])
    (hnd : (goals.map (fun p => p.2.goalName)).Nodup)
    (hpos : ∀ p ∈ goals, 0 < p.2.timeframe ∧ 0 < monthlyTarget p.2) :
    (allocate_savings_to_goals total goals
        = goals.map (fun p =>
            (p.2.goalName, monthlyTarget p.2 / totalMonthlyTarget goals * total))
      ∧ ((allocate_savings_to_goals total goals).map (fun p => p.2)).sum = total)
    ∧ ∀ (t : Rat) (gs : List (Nat × GoalRec)),
        totalMonthlyTarget gs = 0 → allocate_savings_to_goals t gs = [] := by
  have hval : validGoals goals = goals := by
    unfold validGoals
    rw [List.filter_eq_self]
    intro p hp
    exact decide_eq_true (hpos p hp).1
  have hsum : ((goals.map (fun p => monthlyTarget p.2)).sum = totalMonthlyTarget goals) := by
    rw [totalMonthlyTarget, hval]
  have htpos : 0 < totalMonthlyTarget goals := by
    rw [← hsum]
    refine listSumPos _ (by simpa using hne) ?_
    intro x hx
    obtain ⟨p, hp, rfl⟩ := List.mem_map.mp hx
    exact (hpos p hp).2
  have hT : totalMonthlyTarget goals ≠ 0 := ne_of_gt htpos
  have hmain : allocate_savings_to_goals total goals
      = goals.map (fun p =>
          (p.2.goalName, monthlyTarget p.2 / totalMonthlyTarget goals * total)) := by
    unfold allocate_savings_to_goals
    rw [if_neg hT, hval]
    have := foldl_dictUpd_fresh (fun p : Nat × GoalRec => p.2.goalName)
      (fun p => monthlyTarget p.2 / totalMonthlyTarget goals * total) goals []
      (by simp) hnd
    simpa using this
  refine ⟨⟨hmain, ?_⟩, ?_⟩
  · rw [hmain]
    calc ((goals.map (fun p =>
            (p.2.goalName, monthlyTarget p.2 / totalMonthlyTarget goals * total))).map
              (fun p => p.2)).sum
        = (goals.map (fun p =>
            monthlyTarget p.2 / totalMonthlyTarget goals * total)).sum := by
          rw [List.map_map]; rfl
      _ = (goals.map (fun p => monthlyTarget p.2)).sum / totalMonthlyTarget goals * total :=
          listSumDivMulMap (fun p : Nat × GoalRec => monthlyTarget p.2)
            (totalMonthlyTarget goals) total goals
      _ = totalMonthlyTarget goals / totalMonthlyTarget goals * total := by rw [hsum]
      _ = total := by rw [div_self hT, one_mul]
  · intro t gs h0
    unfold allocate_savings_to_goals
    rw [if_pos h0]

theorem c4_allocation_witness :
    allocate_savings_to_goals 500 c4goalsAB = [("Emergency Fund", 100), ("Car", 400)]
    ∧ ((allocate_savings_to_goals 500 c4goalsAB).map (fun p => p.2)).sum = 500 := by
  have hpos : ∀ p ∈ c4goalsAB, 0 < p.2.timeframe ∧ 0 < monthlyTarget p.2 := by
    intro p hp
    simp only [c4goalsAB, List.mem_cons, List.not_mem_nil, or_false] at hp
    rcases hp with rfl | rfl
    · exact ⟨by norm_num, by norm_num [monthlyTarget]⟩
    · exact ⟨by norm_num, by norm_num [monthlyTarget]⟩
  have h := c4_allocation_proportional 500 c4goalsAB (by simp [c4goalsAB])
    (by simp [c4goalsAB]) hpos
  refine ⟨h.1.1.trans ?_, h.1.2⟩
  norm_num [c4goalsAB, monthlyTarget, totalMonthlyTarget, validGoals]

/-- C4 counterexample: two goals sharing the name "Car" with monthly targets
200 and 800 and total savings 500 all satisfy the claim's hypotheses, yet the
allocation dict (keyed by goal name) keeps only the later goal's share, so the
allocations sum to 400, not 500. -/
theorem c4_counterexample :
    0 < (GoalRec.mk "Car" 200 1).timeframe
    ∧ 0 < monthlyTarget (GoalRec.mk "Car" 200 1)
    ∧ 0 < (GoalRec.mk "Car" 800 1).timeframe
    ∧ 0 < monthlyTarget (GoalRec.mk "Car" 800 1)
    ∧ allocate_savings_to_goals 500 c4goalsDup = [("Car", 400)]
    ∧ ((allocate_savings_to_goals 500 c4goalsDup).map (fun p => p.2)).sum ≠ 500 := by
  have hT : totalMonthlyTarget c4goalsDup = 1000 := by
    norm_num [totalMonthlyTarget, validGoals, c4goalsDup, monthlyTarget]
  have halloc : allocate_savings_to_goals 500 c4goalsDup = [("Car", 400)] := by
    unfold allocate_savings_to_goals
    rw [hT]
    norm_num [validGoals, c4goalsDup, monthlyTarget, dictUpd, hT]
  refine ⟨by norm_num, by norm_num [monthlyTarget], by norm_num,
    by norm_num [monthlyTarget], halloc, ?_⟩
  rw [halloc]
  norm_num

/-! ## Claim C9: non-negative savings potential -/

theorem reducible_factor_le_one (c : String) : dictGetD reducible_categories c 1 ≤ 1 := by
  simp only [reducible_categories, dictGetD]
  split_ifs <;> norm_num

theorem constraint_foldl_ne (c : String) :
    ∀ (ms : List (String × Rat)) (d : List (String × Rat)) (dflt : Rat),
      (∀ p ∈ ms, p.1 ≠ c) →
      dictGetD (ms.foldl constraintStep d) c dflt = dictGetD d c dflt := by
  intro ms
  induction ms with
  | nil => intro d dflt _; rfl
  | cons p ms ih =>
    intro d dflt h
    simp only [List.foldl_cons]
    rw [ih _ _ (fun q hq => h q (by simp [hq]))]
    unfold constraintStep
    split_ifs with hex
    · rfl
    · exact dictGetD_dictUpd_ne d p.1 c _ dflt (fun he => h p (by simp) he.symm)

theorem constraint_lookup (c : String) (a dflt : Rat) :
    ∀ (ms : List (String × Rat)) (d : List (String × Rat)),
      (ms.map (fun p => p.1)).Nodup → (c, a) ∈ ms → c ∉ excluded_categories →
      c ∉ d.map (fun p => p.1) →
      dictGetD (ms.foldl constraintStep d) c dflt = a * dictGetD reducible_categories c 1 := by
  intro ms
  induction ms with
  | nil => intro d _ hmem _ _; simp at hmem
  | cons p ms ih =>
    intro d hnd hmem hex hd
    simp only [List.map_cons, List.nodup_cons] at hnd
    simp only [List.foldl_cons]
    rcases List.mem_cons.mp hmem with heq | htl
    · have hp1 : p.1 = c := by rw [← heq]
      have hp2 : p.2 = a := by rw [← heq]
      have hstep : constraintStep d p = dictUpd d c (a * dictGetD reducible_categories c 1) := by
        unfold constraintStep
        rw [hp1, hp2, if_neg hex]
      rw [hstep]
      rw [constraint_foldl_ne c ms _ dflt ?_]
      · exact dictGetD_dictUpd_self d c _ dflt
      · intro q hq he
        exact hnd.1 (by rw [← hp1] at he; exact he ▸ List.mem_map_of_mem (fun p => p.1) hq)
    · have hp1 : p.1 ≠ c := by
        intro he
        exact hnd.1 (he ▸ List.mem_map.mpr ⟨(c, a), htl, rfl⟩)
      refine ih _ hnd.2 htl hex ?_
      unfold constraintStep
      split_ifs with hexp
      · exact hd
      · intro hmem'
        rcases mem_keys_dictUpd d p.1 c _ hmem' with h' | h'
        · exact hd h'
        · exact hp1 h'.symm

/-- C9: with a per-category spending map (distinct categories, non-negative
amounts), every non-excluded category's recommended ceiling is its spend times
its reduction factor, each category's savings contribution is non-negative,
and the total savings potential is non-negative. -/
theorem c9_savings_nonneg (ms : List (String × Rat))
    (hnd : (ms.map (fun p => p.1)).Nodup) (hnn : ∀ p ∈ ms, 0 ≤ p.2) :
    (∀ p ∈ ms, p.1 ∉ excluded_categories →
        dictGetD (set_budget_constraints ms) p.1 p.2
            = p.2 * dictGetD reducible_categories p.1 1
        ∧ 0 ≤ p.2 - dictGetD (set_budget_constraints ms) p.1 p.2)
    ∧ 0 ≤ calculate_savings_potential ms (set_budget_constraints ms) := by
  have hkey : ∀ p ∈ ms, p.1 ∉ excluded_categories →
      dictGetD (set_budget_constraints ms) p.1 p.2
        = p.2 * dictGetD reducible_categories p.1 1 := by
    intro p hp hex
    unfold set_budget_constraints
    exact constraint_lookup p.1 p.2 p.2 ms [] hnd (by simpa using hp) hex (by simp)
  have hterm : ∀ p ∈ ms, p.1 ∉ excluded_categories →
      0 ≤ p.2 - dictGetD (set_budget_constraints ms) p.1 p.2 := by
    intro p hp hex
    rw [hkey p hp hex]
    have h1 := hnn p hp
    have h2 := reducible_factor_le_one p.1
    have := mul_le_of_le_one_right h1 h2
    linarith
  refine ⟨fun p hp hex => ⟨hkey p hp hex, hterm p hp hex⟩, ?_⟩
  unfold calculate_savings_potential
  refine listSumNonneg _ ?_
  intro x hx
  obtain ⟨p, hpf, rfl⟩ := List.mem_map.mp hx
  obtain ⟨hp, hex⟩ := List.mem_filter.mp hpf
  exact hterm p hp (of_decide_eq_true hex)

theorem c9_savings_nonneg_witness :
    0 ≤ calculate_savings_potential c9spending (set_budget_constraints c9spending) :=
  (c9_savings_nonneg c9spending (by decide) (by decide)).2

/-! ## Claim C10: current spending aggregation and stored recommendation -/

theorem pyRound2_of_den_one (q : Rat) (h : (q * 100).den = 1) : pyRound2 q = q := by
  have hcast : (((q * 100).num : Int) : Rat) = q * 100 := (Rat.den_eq_one_iff (q * 100)).mp h
  have hfl : ⌊q * 100⌋ = (q * 100).num := by
    conv_lhs => rw [← hcast]
    exact Int.floor_intCast _
  unfold pyRound2 roundHalfEven
  rw [hfl, hcast, sub_self, if_pos (by norm_num : (0 : Rat) < 1 / 2), hcast, mul_div_assoc]
  norm_num

theorem spend_foldl_lookup (c : String) (hc : c ∉ excluded_categories) :
    ∀ (txs : List SpendRecord) (d : List (String × Rat)),
      dictGetD (txs.foldl spendStep d) c 0
        = dictGetD d c 0
          + ((txs.filter (fun t => decide (t.ttype = "debited") && decide (t.category = c)
                && t.amount.isSome)).map (fun t => t.amount.getD 0)).sum := by
  intro txs
  induction txs with
  | nil => intro d; simp
  | cons t ts ih =>
    intro d
    simp only [List.foldl_cons, List.filter_cons]
    by_cases h1 : t.ttype = "debited"
    · by_cases h2 : t.category ∈ excluded_categories
      · have hne : ¬(t.category = c) := fun he => hc (he ▸ h2)
        have hstep : spendStep d t = d := by simp [spendStep, h1, h2]
        rw [hstep, ih d]
        simp [hne]
      · cases ha : t.amount with
        | some a =>
          by_cases h3 : t.category = c
          · have hstep : spendStep d t = dictUpd d c (dictGetD d c 0 + a) := by
              simp [spendStep, h1, ha, h3, hc]
            rw [hstep, ih _]
            rw [dictGetD_dictUpd_self d c _ 0]
            simp [h1, h3, ha, add_assoc]
          · have hstep : spendStep d t
                = dictUpd d t.category (dictGetD d t.category 0 + a) := by
              simp [spendStep, h1, h2, ha]
            rw [hstep, ih _]
            rw [dictGetD_dictUpd_ne d t.category c _ 0 (fun he => h3 he.symm)]
            simp [h3]
        | none =>
          have hstep : spendStep d t = d := by simp [spendStep, h1, h2, ha]
          rw [hstep, ih d]
          simp [ha]
    · have hstep : spendStep d t = d := by simp [spendStep, h1]
      rw [hstep, ih d]
      simp [h1]

/-- C10 (amended): for every non-excluded category, the aggregated current
figure is the sum over the whole stored history of the amounts of debited,
parseable transactions in that category (credits, excluded categories and
unparseable amounts contribute nothing, with no date filter); each
recommendation record stores that figure rounded to two decimals, which equals
the sum exactly whenever the sum has at most two decimal places. -/
theorem c10_current_spending (txs : List SpendRecord) (c : String)
    (hc : c ∉ excluded_categories) :
    dictGetD (get_current_spending txs) c 0
      = ((txs.filter (fun t => decide (t.ttype = "debited") && decide (t.category = c)
            && t.amount.isSome)).map (fun t => t.amount.getD 0)).sum
    ∧ (∀ (recs : List (String × Rat)) (r : Rat), (c, r) ∈ recs →
        RecDoc.mk c (pyRound2 (dictGetD (get_current_spending txs) c 0)) (pyRound2 r)
          ∈ save_recommendations (get_current_spending txs) recs)
    ∧ ((dictGetD (get_current_spending txs) c 0 * 100).den = 1 →
        pyRound2 (dictGetD (get_current_spending txs) c 0)
          = dictGetD (get_current_spending txs) c 0) := by
  refine ⟨?_, ?_, ?_⟩
  · have := spend_foldl_lookup c hc txs []
    simpa [get_current_spending, dictGetD] using this
  · intro recs r hmem
    unfold save_recommendations
    exact List.mem_map.mpr ⟨(c, r), hmem, rfl⟩
  · exact pyRound2_of_den_one _

theorem c10_current_spending_witness :
    dictGetD (get_current_spending c10txsA) "Shopping" 0 = 100 := by
  rw [(c10_current_spending c10txsA "Shopping" (by decide)).1]
  have hcd : ¬(("credited" : String) = "debited") := by decide
  norm_num [c10txsA, hcd]

/-- C10 counterexample: a single debited Shopping transaction of amount 1.239
sums to 1.239, but the recommendation record stores round(1.239, 2) = 1.24,
so the stored current figure is not the sum of the amounts. -/
theorem c10_counterexample :
    ((save_recommendations (get_current_spending c10txsB) [("Shopping", 90)]).map
        (fun rd => rd.current)) = [31 / 25]
    ∧ dictGetD (get_current_spending c10txsB) "Shopping" 0 = 1239 / 1000
    ∧ ((31 : Rat) / 25 ≠ 1239 / 1000) := by
  have hex : ¬(("Shopping" : String) ∈ excluded_categories) := by decide
  have hcur : get_current_spending c10txsB = [("Shopping", 1239 / 1000)] := by
    norm_num [get_current_spending, c10txsB, spendStep, dictUpd, dictGetD, hex]
  have hround : pyRound2 (1239 / 1000 : Rat) = 31 / 25 := by
    have hfl : ⌊(1239 / 1000 : Rat) * 100⌋ = 123 := by norm_num
    unfold pyRound2 roundHalfEven
    rw [hfl, if_neg (by norm_num), if_pos (by norm_num)]
    norm_num
  refine ⟨?_, ?_, by norm_num⟩
  · simp [save_recommendations, hcur, dictGetD, hround]
  · simp [hcur, dictGetD]

/-! ## Claim C8: aggregation totals -/

theorem pyRound2_zero : pyRound2 0 = 0 := by
  norm_num [pyRound2, roundHalfEven]

theorem dictGetD_map_pyRound2 (l : List (String × Rat)) (c : String) :
    dictGetD (l.map (fun p => (p.1, pyRound2 p.2))) c 0 = pyRound2 (dictGetD l c 0) := by
  induction l with
  | nil => simp [dictGetD, pyRound2_zero]
  | cons p t ih =>
    by_cases h : p.1 = c
    · simp [dictGetD, h]
    · simp [dictGetD, h, ih]

theorem bump_foldl {α : Type} (f : α → String) (v : α → Rat) (c : String) :
    ∀ (l : List α) (d : List (String × Rat)),
      dictGetD (l.foldl (fun d x => bumpCategory d (f x) (v x)) d) c 0
        = dictGetD d c 0
          + ((l.filter (fun x => decide (renameCat (f x) = some c))).map v).sum := by
  intro l
  induction l with
  | nil => intro d; simp
  | cons x l ih =>
    intro d
    simp only [List.foldl_cons, List.filter_cons]
    cases hm : renameCat (f x) with
    | none =>
      have hstep : bumpCategory d (f x) (v x) = d := by simp [bumpCategory, hm]
      rw [hstep, ih d]
      simp [hm]
    | some nc =>
      by_cases hnc : nc = c
      · subst hnc
        have hstep : bumpCategory d (f x) (v x) = dictUpd d nc (dictGetD d nc 0 + v x) := by
          simp [bumpCategory, hm]
        rw [hstep, ih _, dictGetD_dictUpd_self d nc _ 0]
        simp [hm, add_assoc]
      · have hstep : bumpCategory d (f x) (v x) = dictUpd d nc (dictGetD d nc 0 + v x) := by
          simp [bumpCategory, hm]
        have hcn : c ≠ nc := fun he => hnc he.symm
        rw [hstep, ih _, dictGetD_dictUpd_ne d nc c _ 0 hcn]
        simp [hm, hnc]

/-- C8 (amended): the aggregation pass recomputes per-category totals from
scratch: the total of a renamed bucket is the sum of the amounts of all
categorized transactions and manual entries whose source category renames to
that bucket (source categories outside the renaming table contribute
nothing); the stored output value is that total rounded to two decimals —
equal to the total whenever it has at most two decimal places — and for two
categorized amounts 100 and 50 in the same renamed bucket the stored value is
exactly 150. -/
theorem c8_aggregation (cats : List CatTxDoc) (mans : List ManualDoc) (c : String) :
    dictGetD (categoryTotals cats mans) c 0
      = ((cats.filter (fun t => decide (renameCat t.category = some c))).map
          (fun t => t.amount)).sum
        + ((mans.filter (fun m => decide (renameCat m.expenseName = some c))).map
            (fun m => m.expenseAmount)).sum
    ∧ dictGetD (update_combined_transactions cats mans) c 0
        = pyRound2 (dictGetD (categoryTotals cats mans) c 0)
    ∧ ((dictGetD (categoryTotals cats mans) c 0 * 100).den = 1 →
        dictGetD (update_combined_transactions cats mans) c 0
          = dictGetD (categoryTotals cats mans) c 0)
    ∧ dictGetD (update_combined_transactions c8cats []) "Food" 0 = 150 := by
  have hmans := bump_foldl (fun m : ManualDoc => m.expenseName)
    (fun m => m.expenseAmount) c mans
    (cats.foldl (fun d t => bumpCategory d t.category t.amount) [])
  have hcats := bump_foldl (fun t : CatTxDoc => t.category) (fun t => t.amount) c cats []
  have h1 : dictGetD (categoryTotals cats mans) c 0
      = ((cats.filter (fun t => decide (renameCat t.category = some c))).map
          (fun t => t.amount)).sum
        + ((mans.filter (fun m => decide (renameCat m.expenseName = some c))).map
            (fun m => m.expenseAmount)).sum := by
    unfold categoryTotals
    rw [hmans, hcats]
    simp [dictGetD, add_comm]
  have h2 : ∀ (cs : List CatTxDoc) (ms : List ManualDoc) (k : String),
      dictGetD (update_combined_transactions cs ms) k 0
        = pyRound2 (dictGetD (categoryTotals cs ms) k 0) := by
    intro cs ms k
    unfold update_combined_transactions
    exact dictGetD_map_pyRound2 _ k
  have hr : renameCat "Food & Dining" = some "Food" := by decide
  have htot : dictGetD (categoryTotals c8cats []) "Food" 0 = 150 := by
    norm_num [categoryTotals, c8cats, bumpCategory, hr, dictUpd, dictGetD]
  refine ⟨h1, h2 cats mans c, ?_, ?_⟩
  · intro hden
    rw [h2 cats mans c]
    exact pyRound2_of_den_one _ hden
  · rw [h2 c8cats [] "Food", htot]
    apply pyRound2_of_den_one
    norm_num [Rat.den_ofNat]

theorem c8_aggregation_witness :
    dictGetD (update_combined_transactions c8cats []) "Food" 0
      = dictGetD (categoryTotals c8cats []) "Food" 0 := by
  have hr : renameCat "Food & Dining" = some "Food" := by decide
  have htot : dictGetD (categoryTotals c8cats []) "Food" 0 = 150 := by
    norm_num [categoryTotals, c8cats, bumpCategory, hr, dictUpd, dictGetD]
  exact (c8_aggregation c8cats [] "Food").2.2.1
    (by rw [htot]; norm_num [Rat.den_ofNat])

/-- C8 counterexample: a single categorized transaction of amount 1.239 in
"Food & Dining" gives a bucket total of 1.239, but the stored categorycharts
value is round(1.239, 2) = 1.24, so the stored output total is not the sum of
the amounts. -/
theorem c8_counterexample :
    dictGetD (categoryTotals c8badcats []) "Food" 0 = 1239 / 1000
    ∧ dictGetD (update_combined_transactions c8badcats []) "Food" 0 = 31 / 25
    ∧ ((31 : Rat) / 25 ≠ 1239 / 1000) := by
  have hr : renameCat "Food & Dining" = some "Food" := by decide
  have htot : dictGetD (categoryTotals c8badcats []) "Food" 0 = 1239 / 1000 := by
    norm_num [categoryTotals, c8badcats, bumpCategory, hr, dictUpd, dictGetD]
  have hround : pyRound2 (1239 / 1000 : Rat) = 31 / 25 := by
    have hfl : ⌊(1239 / 1000 : Rat) * 100⌋ = 123 := by norm_num
    unfold pyRound2 roundHalfEven
    rw [hfl, if_neg (by norm_num), if_pos (by norm_num)]
    norm_num
  refine ⟨htot, ?_, by norm_num⟩
  unfold update_combined_transactions
  rw [dictGetD_map_pyRound2, htot, hround]

/-! ## Claim C2: filtered messages and the processed set -/

/-- C2 (code bug): a raw message whose body matches no transaction keyword is
discarded by the filter, but its id is never added to processed_ids, because
process_new_data (like process_sms_messages) marks an id processed only when
process_single_sms returns True; the same message therefore shows up as
pending again on the next pass, contrary to the documented
mark-processed-regardless behaviour (which the parallel loop in src/1.py
implements by adding the id in the filter branch). -/
theorem c2_filtered_sms_never_marked :
    shouldStore c2sms.body = false
    ∧ (1 : Nat) ∉ (process_new_data [c2sms] pstate0).processedIds
    ∧ [c2sms].filter
        (fun m => !(decide (m.id ∈ (process_new_data [c2sms] pstate0).processedIds)))
        = [c2sms] := by
  decide

/-! ## Claim C5: the processed-id superset invariant -/

theorem mem_addId_self (ids : List Nat) (i : Nat) : i ∈ addId ids i := by
  unfold addId
  split_ifs with h
  · exact h
  · exact List.mem_cons_self i ids

theorem mem_addId_of_mem (ids : List Nat) (i j : Nat) (h : i ∈ ids) : i ∈ addId ids j := by
  unfold addId
  split_ifs
  · exact h
  · exact List.mem_cons_of_mem j h

theorem mem_map_insertTx (st : List TxDoc) (doc : TxDoc) (i : Nat)
    (h : i ∈ (insertTxIfAbsent st doc).map (fun d => d.id)) :
    i ∈ st.map (fun d => d.id) ∨ i = doc.id := by
  unfold insertTxIfAbsent at h
  split_ifs at h
  · exact Or.inl h
  · simp only [List.map_append, List.mem_append, List.map_cons, List.map_nil,
      List.mem_singleton] at h
    exact h

theorem mem_map_insertCat (st : List CatTxDoc) (doc : CatTxDoc) (i : Nat)
    (h : i ∈ (insertCatIfAbsent st doc).map (fun d => d.id)) :
    i ∈ st.map (fun d => d.id) ∨ i = doc.id := by
  unfold insertCatIfAbsent at h
  split_ifs at h
  · exact Or.inl h
  · simp only [List.map_append, List.mem_append, List.map_cons, List.map_nil,
      List.mem_singleton] at h
    exact h

theorem processedInv_save (s : PState) (sms : SmsDoc) (a : Rat) (r t c : String)
    (h : ProcessedInv s) :
    ProcessedInv { save_transaction s sms a r t c with
      processedIds := addId s.processedIds sms.id } := by
  intro i hi
  show i ∈ addId s.processedIds sms.id
  simp only [persistedIds, save_transaction, List.mem_append] at hi
  rcases hi with (hi | hi) | hi
  · rcases mem_map_insertTx _ _ _ hi with hi' | hi'
    · exact mem_addId_of_mem _ _ _ (h i (by simp [persistedIds, hi']))
    · rw [hi']
      exact mem_addId_self _ _
  · rcases mem_map_insertCat _ _ _ hi with hi' | hi'
    · exact mem_addId_of_mem _ _ _ (h i (by simp [persistedIds, hi']))
    · rw [hi']
      exact mem_addId_self _ _
  · exact mem_addId_of_mem _ _ _ (h i (by simp [persistedIds, hi]))

theorem processedInv_step1 (s : PState) (m : SmsDoc) (h : ProcessedInv s) :
    ProcessedInv (step1 s m) := by
  by_cases hs : shouldStore m.body
  · have hstep : step1 s m = { save_transaction s m
        (amountStrToRat (parse_transaction_details m.body).1)
        (parse_transaction_details m.body).2.1
        (parse_transaction_details m.body).2.2
        (classify_transaction s.model m.body (parse_transaction_details m.body).2.2)
      with processedIds := addId s.processedIds m.id } := by
      simp [step1, process_single_sms, hs, save_transaction]
    rw [hstep]
    exact processedInv_save s m _ _ _ _ h
  · have hstep : step1 s m = s := by simp [step1, process_single_sms, hs]
    rw [hstep]
    exact h

theorem processedInv_foldl (l : List SmsDoc) :
    ∀ s : PState, ProcessedInv s → ProcessedInv (l.foldl step1 s) := by
  induction l with
  | nil => intro s h; exact h
  | cons m l ih => intro s h; exact ih _ (processedInv_step1 s m h)

theorem processedInv_manualPhase (s : PState) (h : ProcessedInv s) :
    ProcessedInv (manualPhase s) := by
  simp only [manualPhase]
  split
  · exact h
  · intro i hi
    exact List.mem_append_left _ (h i hi)

theorem processedInv_smsPhase (raws : List SmsDoc) (s : PState) (h : ProcessedInv s) :
    ProcessedInv (smsPhase raws s) := by
  simp only [smsPhase]
  split
  · exact h
  · exact processedInv_foldl _ s h

/-- C5: initialize_processed_ids seeds the in-memory set with every persisted
id, and each process_new_data pass preserves the superset invariant: at its
end, every id with a persisted Transaction, CategorizedTransaction or
ManualEntry record is in the processed set. -/
theorem c5_processed_superset :
    (∀ s : PState, ProcessedInv { s with processedIds := initialize_processed_ids s })
    ∧ ∀ (raws : List SmsDoc) (s : PState),
        ProcessedInv s → ProcessedInv (process_new_data raws s) := by
  constructor
  · intro s i hi
    exact hi
  · intro raws s h
    exact processedInv_smsPhase raws _ (processedInv_manualPhase s h)

theorem c5_processed_superset_witness :
    ProcessedInv (process_new_data [c5sms] pstate0) :=
  c5_processed_superset.2 [c5sms] pstate0 (by decide)

/-! ## Claim C1: idempotence of process_new_data -/

theorem step1_manualStore (s : PState) (m : SmsDoc) :
    (step1 s m).manualStore = s.manualStore := by
  by_cases hs : shouldStore m.body <;>
    simp [step1, process_single_sms, save_transaction, hs]

theorem foldl_step1_manualStore (l : List SmsDoc) :
    ∀ s : PState, (l.foldl step1 s).manualStore = s.manualStore := by
  induction l with
  | nil => intro s; rfl
  | cons m l ih => intro s; rw [List.foldl_cons, ih, step1_manualStore]

theorem manualPhase_manualStore (s : PState) : (manualPhase s).manualStore = s.manualStore := by
  simp only [manualPhase]
  split <;> rfl

theorem smsPhase_manualStore (raws : List SmsDoc) (s : PState) :
    (smsPhase raws s).manualStore = s.manualStore := by
  simp only [smsPhase]
  split
  · rfl
  · exact foldl_step1_manualStore _ s

theorem mem_ids_step1 (s : PState) (m : SmsDoc) (i : Nat) (h : i ∈ s.processedIds) :
    i ∈ (step1 s m).processedIds := by
  by_cases hs : shouldStore m.body
  · have hids : (step1 s m).processedIds = addId s.processedIds m.id := by
      simp [step1, process_single_sms, save_transaction, hs]
    rw [hids]
    exact mem_addId_of_mem _ _ _ h
  · have hids : step1 s m = s := by simp [step1, process_single_sms, hs]
    rw [hids]
    exact h

theorem mem_ids_foldl_step1 (l : List SmsDoc) :
    ∀ (s : PState) (i : Nat), i ∈ s.processedIds → i ∈ (l.foldl step1 s).processedIds := by
  induction l with
  | nil => intro s i h; exact h
  | cons m l ih => intro s i h; exact ih _ i (mem_ids_step1 s m i h)

theorem mem_ids_manualPhase (s : PState) (i : Nat) (h : i ∈ s.processedIds) :
    i ∈ (manualPhase s).processedIds := by
  simp only [manualPhase]
  split
  · exact h
  · exact List.mem_append_left _ h

theorem mem_ids_smsPhase (raws : List SmsDoc) (s : PState) (i : Nat)
    (h : i ∈ s.processedIds) : i ∈ (smsPhase raws s).processedIds := by
  simp only [smsPhase]
  split
  · exact h
  · exact mem_ids_foldl_step1 _ s i h

theorem manualIds_mem_manualPhase (s : PState) (i : Nat)
    (h : i ∈ s.manualStore.map (fun m => m.id)) :
    i ∈ (manualPhase s).processedIds := by
  simp only [manualPhase]
  split
  case isTrue h1 =>
    by_cases hi : i ∈ s.processedIds
    · exact hi
    · exfalso
      have hmem : i ∈ (s.manualStore.map (fun m => m.id)).filter
          (fun j => !(decide (j ∈ s.processedIds))) :=
        List.mem_filter.mpr ⟨h, by simp [hi]⟩
      simp only [List.isEmpty_iff] at h1
      rw [h1] at hmem
      simp at hmem
  case isFalse h1 =>
    by_cases hi : i ∈ s.processedIds
    · exact List.mem_append_left _ hi
    · exact List.mem_append_right _ (List.mem_filter.mpr ⟨h, by simp [hi]⟩)

theorem foldl_step1_of_none (l : List SmsDoc)
    (h : ∀ m ∈ l, shouldStore m.body = false) : ∀ s : PState, l.foldl step1 s = s := by
  induction l with
  | nil => intro s; rfl
  | cons x l ih =>
    intro s
    rw [List.foldl_cons]
    have hx : step1 s x = s := by
      simp [step1, process_single_sms, h x (List.mem_cons_self x l)]
    rw [hx, ih (fun m hm => h m (List.mem_cons_of_mem x hm))]

theorem mem_ids_foldl_of_shouldStore (l : List SmsDoc) :
    ∀ (s : PState) (m : SmsDoc), m ∈ l → shouldStore m.body = true →
      m.id ∈ (l.foldl step1 s).processedIds := by
  induction l with
  | nil => intro s m h _; simp at h
  | cons x l ih =>
    intro s m hm hs
    rw [List.foldl_cons]
    rcases List.mem_cons.mp hm with rfl | hm'
    · apply mem_ids_foldl_step1
      have hids : (step1 s m).processedIds = addId s.processedIds m.id := by
        simp [step1, process_single_sms, save_transaction, hs]
      rw [hids]
      exact mem_addId_self _ _
    · exact ih _ m hm' hs

theorem mem_ids_smsPhase_of_shouldStore (raws : List SmsDoc) (s : PState) (m : SmsDoc)
    (hm : m ∈ raws) (hs : shouldStore m.body = true) :
    m.id ∈ (smsPhase raws s).processedIds := by
  by_cases hmem : m.id ∈ s.processedIds
  · exact mem_ids_smsPhase raws s m.id hmem
  · have hp : m ∈ raws.filter (fun x => !(decide (x.id ∈ s.processedIds))) :=
      List.mem_filter.mpr ⟨hm, by simp [hmem]⟩
    have hne : ¬((raws.filter (fun x => !(decide (x.id ∈ s.processedIds)))).isEmpty = true) := by
      intro h0
      simp only [List.isEmpty_iff] at h0
      rw [h0] at hp
      simp at hp
    simp only [smsPhase]
    rw [if_neg hne]
    exact mem_ids_foldl_of_shouldStore _ s m hp hs

theorem manualPhase_fix (s : PState)
    (h : ∀ i ∈ s.manualStore.map (fun m => m.id), i ∈ s.processedIds) :
    manualPhase s = s := by
  have hfilter : (s.manualStore.map (fun m => m.id)).filter
      (fun i => !(decide (i ∈ s.processedIds))) = [] := by
    rw [List.filter_eq_nil_iff]
    intro i hi
    simp [h i hi]
  simp only [manualPhase, hfilter]
  rfl

theorem smsPhase_fix (raws : List SmsDoc) (s : PState)
    (h : ∀ m ∈ raws, m.id ∉ s.processedIds → shouldStore m.body = false)
    (hcomb : raws.filter (fun m => !(decide (m.id ∈ s.processedIds))) ≠ [] →
      s.combined = update_combined_transactions s.categorizedStore s.manualStore) :
    smsPhase raws s = s := by
  by_cases hp : raws.filter (fun m => !(decide (m.id ∈ s.processedIds))) = []
  · simp only [smsPhase, hp]
    rfl
  · have hfold : (raws.filter (fun m => !(decide (m.id ∈ s.processedIds)))).foldl step1 s
        = s := by
      apply foldl_step1_of_none
      intro m hm
      obtain ⟨hmr, hmp⟩ := List.mem_filter.mp hm
      exact h m hmr (by simpa using hmp)
    have hne : ¬((raws.filter (fun m => !(decide (m.id ∈ s.processedIds)))).isEmpty = true) := by
      simpa [List.isEmpty_iff] using hp
    simp only [smsPhase]
    rw [if_neg hne, hfold, ← hcomb hp]

/-- C1: process_new_data is idempotent over an unchanged raw-message set: the
second pass returns exactly the state the first pass produced — both
insert-if-absent stores, the combined view and the processed-id set are
unchanged — so no duplicate Transaction or CategorizedTransaction record is
inserted and no stored field (Amount and Category included) changes. -/
theorem c1_ingestion_idempotent (raws : List SmsDoc) (s : PState) :
    process_new_data raws (process_new_data raws s) = process_new_data raws s := by
  unfold process_new_data
  have hmanP : ∀ i ∈ (smsPhase raws (manualPhase s)).manualStore.map (fun m => m.id),
      i ∈ (smsPhase raws (manualPhase s)).processedIds := by
    intro i hi
    rw [smsPhase_manualStore, manualPhase_manualStore] at hi
    apply mem_ids_smsPhase
    apply manualIds_mem_manualPhase
    exact hi
  rw [manualPhase_fix _ hmanP]
  apply smsPhase_fix
  · intro m hm hmid
    by_contra hstore
    rw [Bool.not_eq_false] at hstore
    exact hmid (mem_ids_smsPhase_of_shouldStore raws (manualPhase s) m hm hstore)
  · intro hne2
    obtain ⟨m, hm⟩ := List.exists_mem_of_ne_nil _ hne2
    obtain ⟨hmr, hmp⟩ := List.mem_filter.mp hm
    have hmid1 : m.id ∉ (manualPhase s).processedIds := by
      intro hin
      have hin2 := mem_ids_smsPhase raws (manualPhase s) m.id hin
      simp only [Bool.not_eq_true', decide_eq_false_iff_not] at hmp
      exact hmp hin2
    have hne1 : ¬((raws.filter
        (fun x => !(decide (x.id ∈ (manualPhase s).processedIds)))).isEmpty = true) := by
      intro h0
      simp only [List.isEmpty_iff] at h0
      have hp1 : m ∈ raws.filter
          (fun x => !(decide (x.id ∈ (manualPhase s).processedIds))) :=
        List.mem_filter.mpr ⟨hmr, by simp [hmid1]⟩
      rw [h0] at hp1
      simp at hp1
    simp only [smsPhase]
    rw [if_neg hne1]
